import Mathlib

/-!
Verification of PiRadio src/resources/basemode.py (class RadioBaseMode).

The file embeds the menu-tree builder (_walk_menu, _get_menu_items,
build_menu), the accent sanitizer (remove_accents), and the LED toggle
(toggle_led) of basemode.py as Lean functions, and proves the frozen
claims about them.

basemode.py is Python 2 code (it calls the builtin unicode). Dynamic
Python values reaching the menu builder are modelled by the inductive
type PyVal below; exceptions are modelled with Except.

The node classes RadioSubmenu, RadioMenuItem and RadioMenuMode are
imported from resources/menubase.py, a file of this repository that is
not available here; their behaviour (add_item, add_back_item, the node
shapes) is modelled from the spec where noted.
-/

namespace PiRadio

/-- Dynamic Python values that can appear in a menu specification:
strings, ints, opaque callables (actions, identified by an id), lists
and tuples. -/
inductive PyVal where
  | pyStr : String → PyVal
  | pyInt : Int → PyVal
  | pyFun : Nat → PyVal
  | pyList : List PyVal → PyVal
  | pyTuple : List PyVal → PyVal

/-- Python exceptions the builder can raise: unpacking a loop element
that is not a pair raises ValueError (for text, target in menu). -/
inductive PyErr where
  | valueError : PyErr

/-- Modelled from the spec: the menu node classes of menubase.py (not
under src/). RadioMenuItem is a leaf with a label and an opaque action;
back is the synthesized trailing "Back" item appended by add_back_item,
whose invocation navigates to the parent of the submenu holding it;
RadioSubmenu and RadioMenuMode (the Root) hold an ordered sequence of
children. -/
inductive MenuNode where
  | item : PyVal → PyVal → MenuNode
  | back : MenuNode
  | submenu : PyVal → List MenuNode → MenuNode
  | root : List MenuNode → MenuNode

/-- Modelled from the spec: add_item (menubase.py, not under src/)
appends a child at the end of the ordered child sequence of a container
node. It is only ever called on RadioSubmenu or RadioMenuMode nodes. -/
def add_item : MenuNode → MenuNode → MenuNode
  | MenuNode.submenu l cs, c => MenuNode.submenu l (cs ++ [c])
  | MenuNode.root cs, c => MenuNode.root (cs ++ [c])
  | n, _ => n

/-- Modelled from the spec: add_back_item (menubase.py, not under src/)
appends one synthesized trailing "Back" item to a submenu. -/
def add_back_item : MenuNode → MenuNode
  | MenuNode.submenu l cs => MenuNode.submenu l (cs ++ [MenuNode.back])
  | n => n

/-- isinstance(parent, RadioSubmenu): RadioMenuMode (the Root) is not a
RadioSubmenu, per the spec the Root never receives a Back item. -/
def isSubmenu : MenuNode → Bool
  | MenuNode.submenu _ _ => true
  | _ => false

/-- Python sequence unpacking of a loop element into two names
(for text, target in menu): succeeds on a tuple or list of length 2. -/
def unpack2 : PyVal → Option (PyVal × PyVal)
  | PyVal.pyTuple [a, b] => some (a, b)
  | PyVal.pyList [a, b] => some (a, b)
  | _ => none

mutual

/-- One iteration body of the for loop of RadioBaseMode._walk_menu,
after the element was unpacked into (text, target): if
type(target) == list build a submenu recursively with a fresh
RadioSubmenu(text) as parent and append it, else append
RadioMenuItem(text, target); then continue the loop on rest. -/
def walkStep (text : PyVal) (target : PyVal) (rest : List PyVal)
    (parent : MenuNode) : Except PyErr MenuNode :=
  match target with
  | PyVal.pyList sub =>
    match walk_menu sub (MenuNode.submenu text []) with
    | Except.ok s => walkLoop rest (add_item parent s)
    | Except.error e => Except.error e
  | _ => walkLoop rest (add_item parent (MenuNode.item text target))
termination_by (sizeOf target + sizeOf rest + 1, 1)

/-- The for loop of RadioBaseMode._walk_menu: unpack each element into
(text, target) — a ValueError if the element is not a pair — and run
the loop body on it. -/
def walkLoop : List PyVal → MenuNode → Except PyErr MenuNode
  | [], parent => Except.ok parent
  | PyVal.pyTuple [text, target] :: rest, parent => walkStep text target rest parent
  | PyVal.pyList [text, target] :: rest, parent => walkStep text target rest parent
  | _ :: _, _ => Except.error PyErr.valueError
termination_by m _ => (sizeOf m, 0)

/-- RadioBaseMode._walk_menu: run the loop over the menu entries, then,
if the parent is a RadioSubmenu, add the "Back" option; return parent. -/
def walk_menu (menu : List PyVal) (parent : MenuNode) : Except PyErr MenuNode :=
  match walkLoop menu parent with
  | Except.ok p => Except.ok (if isSubmenu p then add_back_item p else p)
  | Except.error e => Except.error e
termination_by (sizeOf menu, 2)

end

/-- RadioBaseMode._get_menu_items: base = RadioMenuMode(self); if
self.menu is truthy walk it from base, else return the empty base.
The menu attribute is modelled as Option: none is an absent/None menu,
some [] is an empty list (falsy in Python). -/
def get_menu_items (menu : Option (List PyVal)) : Except PyErr MenuNode :=
  match menu with
  | some [] => Except.ok (MenuNode.root [])
  | some (e :: rest) => walk_menu (e :: rest) (MenuNode.root [])
  | none => Except.ok (MenuNode.root [])

/-- RadioBaseMode.build_menu: self.modemenu = self._get_menu_items(). -/
def build_menu (menu : Option (List PyVal)) : Except PyErr MenuNode :=
  get_menu_items menu

/-- Ordered children of a node (leaves have none). -/
def children : MenuNode → List MenuNode
  | MenuNode.submenu _ cs => cs
  | MenuNode.root cs => cs
  | _ => []

/-- The node reached from t by following a path of child indices. -/
def nodeAt : MenuNode → List Nat → Option MenuNode
  | t, [] => some t
  | t, i :: p =>
    match (children t)[i]? with
    | some c => nodeAt c p
    | none => none

/-- Modelled from the spec: invoking the Back item of the submenu
reached by path p navigates one level up, to the submenu's parent. -/
def backNavigate (p : List Nat) : List Nat := p.dropLast

/-- Whether a node is the synthesized Back item. -/
def isBack : MenuNode → Bool
  | MenuNode.back => true
  | _ => false

/-- Number of synthesized Back items in a list of children. -/
def backCount (cs : List MenuNode) : Nat := cs.countP (fun c => isBack c)

/-- Append a list of children to a container node (leaves unchanged);
iterating add_item appends children one by one in this way. -/
def appendKids : MenuNode → List MenuNode → MenuNode
  | MenuNode.submenu l cs, new => MenuNode.submenu l (cs ++ new)
  | MenuNode.root cs, new => MenuNode.root (cs ++ new)
  | n, _ => n

/-- The epilogue of _walk_menu: add the Back option when the parent is
a RadioSubmenu. -/
def finishNode (p : MenuNode) : MenuNode :=
  if isSubmenu p then add_back_item p else p

/-- Invariant of the nodes the builder appends as children: items, or
submenus whose children are the children derived from the sublist
(each again satisfying the invariant and none of them a Back item)
followed by exactly the one synthesized Back item. -/
inductive WFChild : MenuNode → Prop where
  | item : ∀ l a, WFChild (MenuNode.item l a)
  | submenu : ∀ l ini, (∀ c ∈ ini, WFChild c) → (∀ c ∈ ini, c ≠ MenuNode.back) →
      WFChild (MenuNode.submenu l (ini ++ [MenuNode.back]))

/-- Spec-side description of a well-formed MenuSpec target, used to
state the refinement claims: a target is either an opaque action value
or a nested sequence of (label, target) pairs. -/
inductive MTarget where
  | action : PyVal → MTarget
  | sub : List (String × MTarget) → MTarget

/-- Whether a dynamic value is a Python list. -/
def isPyList : PyVal → Bool
  | PyVal.pyList _ => true
  | _ => false

mutual

/-- Encoding of a spec-side target as the dynamic value a mode author
writes in its menu attribute. -/
def encodeTarget : MTarget → PyVal
  | MTarget.action v => v
  | MTarget.sub es => PyVal.pyList (encodeEntries es)

/-- Encoding of spec-side (label, target) pairs as Python tuples. -/
def encodeEntries : List (String × MTarget) → List PyVal
  | [] => []
  | (t, tgt) :: rest => PyVal.pyTuple [PyVal.pyStr t, encodeTarget tgt] :: encodeEntries rest

end

mutual

/-- A target is well formed when every action in it is not a list
(a list always means a nested submenu spec). -/
def wfTarget : MTarget → Bool
  | MTarget.action v => !(isPyList v)
  | MTarget.sub es => wfEntries es

def wfEntries : List (String × MTarget) → Bool
  | [] => true
  | (_, tgt) :: rest => wfTarget tgt && wfEntries rest

end

mutual

/-- The node the spec prescribes for one (label, target) pair: an Item
for an action, and for a sublist a Submenu holding the nodes of the
sublist pairs in order followed by the synthesized Back item. -/
def targetNode : String → MTarget → MenuNode
  | t, MTarget.action v => MenuNode.item (PyVal.pyStr t) v
  | t, MTarget.sub es => MenuNode.submenu (PyVal.pyStr t) (entryNodes es ++ [MenuNode.back])

/-- The nodes the spec prescribes for a sequence of pairs, in order. -/
def entryNodes : List (String × MTarget) → List MenuNode
  | [] => []
  | (t, tgt) :: rest => targetNode t tgt :: entryNodes rest

end

/-!  The accent sanitizer (RadioBaseMode.remove_accents).  -/

mutual

/-- Values reaching remove_accents: text, or a dict of such values
(modelled as an ordered association list with string keys), or an int
standing for any value that is neither text nor a dict. -/
inductive SanVal where
  | text : String → SanVal
  | intVal : Int → SanVal
  | dict : SanEntries → SanVal

inductive SanEntries where
  | nil : SanEntries
  | cons : String → SanVal → SanEntries → SanEntries

end

/-- The Python exception remove_accents lets escape: the TypeError that
unicodedata.normalize raises when its argument is neither str/unicode
nor dict (the error the spec taxonomy calls UnsupportedInputType). -/
inductive SanErr where
  | unsupportedInput : SanErr

/-- True for codepoints in the 7-bit ASCII range; encode("ASCII",
"ignore") keeps exactly these. -/
def isAsciiChar (c : Char) : Bool := c.toNat < 128

/-- Modelled from the spec: unicodedata.normalize("NFKD", -) of the
external unicodedata library, as a per-codepoint canonical
decomposition. The table covers the accented codepoints exercised by
the spec (e acute 233 and a grave 224, decomposing to the base letter
followed by a combining accent, 769 and 768); every other codepoint is
left as itself — in particular every ASCII codepoint, which real NFKD
also leaves fixed. -/
def nfkdChar (c : Char) : List Char :=
  if c.toNat = 233 then [Char.ofNat 101, Char.ofNat 769]
  else if c.toNat = 224 then [Char.ofNat 97, Char.ofNat 768]
  else [c]

/-- NFKD normalization of a string, codepoint by codepoint. -/
def nfkdChars : List Char → List Char
  | [] => []
  | c :: cs => nfkdChar c ++ nfkdChars cs

/-- encode("ASCII", "ignore"): drop every codepoint outside 7-bit
ASCII. -/
def asciiOnlyChars (l : List Char) : List Char := l.filter isAsciiChar

/-- The text branch of remove_accents: NFKD-normalize, then drop every
non-ASCII codepoint. (The Python 2 coercion unicode(data) on a str and
the final byte string are both modelled as the same text type.) -/
def sanitizeText (s : String) : String :=
  String.mk (asciiOnlyChars (nfkdChars s.data))

mutual

/-- RadioBaseMode.remove_accents: a dict is rebuilt with every value
sanitized recursively and keys kept; text is NFKD-normalized and
stripped to ASCII; anything else reaches unicodedata.normalize, which
raises. -/
def remove_accents : SanVal → Except SanErr SanVal
  | SanVal.text s => Except.ok (SanVal.text (sanitizeText s))
  | SanVal.intVal _ => Except.error SanErr.unsupportedInput
  | SanVal.dict es =>
    match remove_accentsEntries es with
    | Except.ok es2 => Except.ok (SanVal.dict es2)
    | Except.error e => Except.error e

/-- The dict comprehension of remove_accents, over the entries in
order. -/
def remove_accentsEntries : SanEntries → Except SanErr SanEntries
  | SanEntries.nil => Except.ok SanEntries.nil
  | SanEntries.cons k v rest =>
    match remove_accents v with
    | Except.ok v2 =>
      match remove_accentsEntries rest with
      | Except.ok rest2 => Except.ok (SanEntries.cons k v2 rest2)
      | Except.error e => Except.error e
    | Except.error e => Except.error e

end

/-- The keys of a dict, in order. -/
def keysE : SanEntries → List String
  | SanEntries.nil => []
  | SanEntries.cons k _ rest => k :: keysE rest

/-- Entrywise relation between a dict and its sanitized form: same keys
in the same order, every value sanitized. -/
inductive EntriesSan : SanEntries → SanEntries → Prop where
  | nil : EntriesSan SanEntries.nil SanEntries.nil
  | cons : ∀ k v v2 r r2, remove_accents v = Except.ok v2 → EntriesSan r r2 →
      EntriesSan (SanEntries.cons k v r) (SanEntries.cons k v2 r2)

mutual

/-- Values whose every text is already pure ASCII (the shape of every
sanitizer output). -/
def asciiCleanV : SanVal → Bool
  | SanVal.text s => s.data.all isAsciiChar
  | SanVal.intVal _ => false
  | SanVal.dict es => asciiCleanE es

def asciiCleanE : SanEntries → Bool
  | SanEntries.nil => true
  | SanEntries.cons _ v rest => asciiCleanV v && asciiCleanE rest

end

/-!  The LED controller (RadioBaseMode.__init__ and toggle_led).  -/

/-- Calls made to the pigpio GPIO collaborator, in order. -/
inductive GpioCall where
  | setMode : Nat → GpioCall
  | write : Nat → Nat → GpioCall

/-- AttributeError: self.pi is None and a method is called on it. -/
inductive AttrErr where
  | attributeError : AttrErr

/-- The hardware-relevant state of a RadioBaseMode instance: whether
self.pi is a pigpio handle (true) or None (false), the led_pin
attribute (none models None), and the GPIO calls issued so far. -/
structure ModeState where
  pi : Bool
  led_pin : Option Nat
  calls : List GpioCall

/-- Python truthiness of the led_pin attribute: None and 0 are falsy. -/
def pinTruthy : Option Nat → Bool
  | none => false
  | some n => n != 0

/-- RadioBaseMode.__init__: store pi and led_pin; if self.pi and
self.led_pin are both truthy, configure the pin as an output. -/
def radioBaseMode_init (pi : Bool) (led_pin : Option Nat) : ModeState :=
  { pi := pi, led_pin := led_pin,
    calls := match led_pin with
      | some p => if pi && p != 0 then [GpioCall.setMode p] else []
      | none => [] }

/-- RadioBaseMode.toggle_led: if self.led_pin is truthy, write
int(state) — 1 for True, 0 for False — to the pin; calling
self.pi.write with pi = None would raise AttributeError. -/
def toggle_led (st : ModeState) (state : Bool) : Except AttrErr ModeState :=
  match st.led_pin with
  | some p =>
    if p != 0 then
      if st.pi then
        Except.ok { st with calls := st.calls ++ [GpioCall.write p (if state then 1 else 0)] }
      else Except.error AttrErr.attributeError
    else Except.ok st
  | none => Except.ok st

/-- Run a sequence of toggle_led calls. -/
def runToggles (st : ModeState) : List Bool → Except AttrErr ModeState
  | [] => Except.ok st
  | b :: rest =>
    match toggle_led st b with
    | Except.ok st2 => runToggles st2 rest
    | Except.error e => Except.error e

/-- The hardware writes a state has issued: the (pin, value) pairs of
its write calls, in order. -/
def writesOf (st : ModeState) : List (Nat × Nat) :=
  st.calls.filterMap (fun c =>
    match c with
    | GpioCall.write p v => some (p, v)
    | GpioCall.setMode _ => none)

/-!  Derived predicates and sample values used in the theorems.  -/

/-- The children a walk appends: each satisfies the builder invariant
and none of them is a synthesized Back item. -/
def GoodNew (new : List MenuNode) : Prop :=
  ∀ c ∈ new, WFChild c ∧ c ≠ MenuNode.back

/-- Shape of every tree the builder returns: a Root whose children all
satisfy the builder invariant, none of them a Back item. -/
def RootOk (t : MenuNode) : Prop :=
  ∃ cs, t = MenuNode.root cs ∧ GoodNew cs

/-- Any node reachable inside a built tree: the Root itself, a node
satisfying the builder invariant, or a synthesized Back item. -/
def OkTreeNode (n : MenuNode) : Prop :=
  RootOk n ∨ WFChild n ∨ n = MenuNode.back

/-- The menu attribute of the spec example:
[("Play", play_action), ("Settings", [("Volume", vol_action)])], with
the two opaque actions modelled as the callables 0 and 1. -/
def sampleMenu : List PyVal :=
  [PyVal.pyTuple [PyVal.pyStr "Play", PyVal.pyFun 0],
   PyVal.pyTuple [PyVal.pyStr "Settings",
     PyVal.pyList [PyVal.pyTuple [PyVal.pyStr "Volume", PyVal.pyFun 1]]]]

/-- The tree the spec example builds. -/
def sampleTree : MenuNode :=
  MenuNode.root [MenuNode.item (PyVal.pyStr "Play") (PyVal.pyFun 0),
    MenuNode.submenu (PyVal.pyStr "Settings")
      [MenuNode.item (PyVal.pyStr "Volume") (PyVal.pyFun 1), MenuNode.back]]

/-- The spec example as a spec-side MenuSpec value. -/
def sampleSpec : List (String × MTarget) :=
  [("Play", MTarget.action (PyVal.pyFun 0)),
   ("Settings", MTarget.sub [("Volume", MTarget.action (PyVal.pyFun 1))])]

/-- The mapping example of the spec, before sanitization. -/
def dejaIn : SanEntries :=
  SanEntries.cons "a" (SanVal.text "Déjà vu")
    (SanEntries.cons "b" (SanVal.text "plain") SanEntries.nil)

/-- The mapping example of the spec, after sanitization. -/
def dejaOut : SanEntries :=
  SanEntries.cons "a" (SanVal.text "Deja vu")
    (SanEntries.cons "b" (SanVal.text "plain") SanEntries.nil)

/-!  Helper lemmas about the builder.  -/

theorem add_item_eq_appendKids (p c : MenuNode) : add_item p c = appendKids p [c] := by
  cases p <;> rfl

theorem appendKids_append (p : MenuNode) (a b : List MenuNode) :
    appendKids (appendKids p a) b = appendKids p (a ++ b) := by
  cases p <;> simp [appendKids]

theorem appendKids_nil (p : MenuNode) : appendKids p [] = p := by
  cases p <;> simp [appendKids]

theorem isBack_eq_false {c : MenuNode} (h : c ≠ MenuNode.back) : isBack c = false := by
  cases c with
  | back => exact absurd rfl h
  | item l a => rfl
  | submenu l cs => rfl
  | root cs => rfl

theorem walkLoop_bad_head (head : PyVal) (tail : List PyVal) (p : MenuNode)
    (h1 : ∀ text target, head = PyVal.pyTuple [text, target] → False)
    (h2 : ∀ text target, head = PyVal.pyList [text, target] → False) :
    walkLoop (head :: tail) p = Except.error PyErr.valueError := by
  cases head with
  | pyStr s => simp [walkLoop]
  | pyInt n => simp [walkLoop]
  | pyFun n => simp [walkLoop]
  | pyTuple l =>
    rcases l with _ | ⟨a, _ | ⟨b, _ | ⟨c, l⟩⟩⟩
    · simp [walkLoop]
    · simp [walkLoop]
    · exact absurd rfl (h1 a b)
    · simp [walkLoop]
  | pyList l =>
    rcases l with _ | ⟨a, _ | ⟨b, _ | ⟨c, l⟩⟩⟩
    · simp [walkLoop]
    · simp [walkLoop]
    · exact absurd rfl (h2 a b)
    · simp [walkLoop]

/-- Main structural invariant of _walk_menu: on success the parent
comes back with a list of new children appended (and, when the parent
is a RadioSubmenu, the trailing Back item), each new child an Item or a
fully built Submenu, never itself a Back item. -/
theorem walkBuild_spec : ∀ (m : List PyVal) (parent : MenuNode), ∀ res,
    walk_menu m parent = Except.ok res →
    ∃ new, GoodNew new ∧ res = finishNode (appendKids parent new) := by
  apply walk_menu.induct
    (fun text target rest parent => ∀ res, walkStep text target rest parent = Except.ok res →
      ∃ new, GoodNew new ∧ res = appendKids parent new)
    (fun m parent => ∀ res, walkLoop m parent = Except.ok res →
      ∃ new, GoodNew new ∧ res = appendKids parent new)
  · -- submenu target, recursive walk succeeded
    intro text rest parent sub s hsub ih3 ih2 res h
    simp only [walkStep, hsub] at h
    obtain ⟨new1, good1, hs⟩ := ih3 s hsub
    obtain ⟨new2, good2, hres⟩ := ih2 res h
    have hs2 : s = MenuNode.submenu text (new1 ++ [MenuNode.back]) := by
      rw [hs]; simp [appendKids, finishNode, isSubmenu, add_back_item]
    refine ⟨s :: new2, ?_, ?_⟩
    · intro c hc
      rcases List.mem_cons.mp hc with rfl | hc
      · constructor
        · rw [hs2]
          exact WFChild.submenu text new1 (fun c hc => (good1 c hc).1)
            (fun c hc => (good1 c hc).2)
        · rw [hs2]; intro hcon; cases hcon
      · exact good2 c hc
    · rw [hres, add_item_eq_appendKids, appendKids_append]
      rfl
  · -- submenu target, recursive walk failed
    intro text rest parent sub e hsub ih3 res h
    simp only [walkStep, hsub] at h
    exact Except.noConfusion h
  · -- leaf target
    intro text target rest parent hne ih res h
    have hstep : walkStep text target rest parent =
        walkLoop rest (add_item parent (MenuNode.item text target)) := by
      cases target with
      | pyList sub => exact absurd rfl (hne sub)
      | pyStr s => simp [walkStep]
      | pyInt n => simp [walkStep]
      | pyFun n => simp [walkStep]
      | pyTuple l => simp [walkStep]
    rw [hstep] at h
    obtain ⟨new2, good2, hres⟩ := ih res h
    refine ⟨MenuNode.item text target :: new2, ?_, ?_⟩
    · intro c hc
      rcases List.mem_cons.mp hc with rfl | hc
      · exact ⟨WFChild.item _ _, fun hcon => by cases hcon⟩
      · exact good2 c hc
    · rw [hres, add_item_eq_appendKids, appendKids_append]
      rfl
  · -- empty loop
    intro parent res h
    simp only [walkLoop] at h
    cases h
    exact ⟨[], fun c hc => absurd hc (List.not_mem_nil c), (appendKids_nil parent).symm⟩
  · -- tuple pair head
    intro text target rest parent ih res h
    simp only [walkLoop] at h
    exact ih res h
  · -- list pair head
    intro text target rest parent ih res h
    simp only [walkLoop] at h
    exact ih res h
  · -- malformed head
    intro head tail x h1 h2 res h
    rw [walkLoop_bad_head head tail x h1 h2] at h
    cases h
  · -- walk_menu, loop succeeded
    intro menu parent s hok ih res h
    simp only [walk_menu, hok] at h
    obtain ⟨new, good, hs⟩ := ih s hok
    refine ⟨new, good, ?_⟩
    injection h with h2
    rw [← hs, ← h2]
    rfl
  · -- walk_menu, loop failed
    intro menu parent e herr ih res h
    simp only [walk_menu, herr] at h
    exact Except.noConfusion h

/-- Every successful build returns a Root whose children satisfy the
builder invariant and contain no Back item. -/
theorem get_menu_items_ok {menu : Option (List PyVal)} {t : MenuNode}
    (h : get_menu_items menu = Except.ok t) : RootOk t := by
  match menu with
  | none =>
    simp only [get_menu_items] at h
    cases h
    exact ⟨[], rfl, fun c hc => absurd hc (List.not_mem_nil c)⟩
  | some [] =>
    simp only [get_menu_items] at h
    cases h
    exact ⟨[], rfl, fun c hc => absurd hc (List.not_mem_nil c)⟩
  | some (e :: rest) =>
    simp only [get_menu_items] at h
    obtain ⟨new, good, ht⟩ := walkBuild_spec (e :: rest) (MenuNode.root []) t h
    refine ⟨new, ?_, good⟩
    rw [ht]
    rfl

/-- Children of a reachable node are reachable node shapes again. -/
theorem okTreeNode_child {t c : MenuNode} (ht : OkTreeNode t) (hc : c ∈ children t) :
    OkTreeNode c := by
  rcases ht with ⟨cs, rfl, good⟩ | hw | rfl
  · simp only [children] at hc
    exact Or.inr (Or.inl (good c hc).1)
  · cases hw with
    | item l a => simp [children] at hc
    | submenu l ini hwf hnb =>
      simp only [children] at hc
      rcases List.mem_append.mp hc with hc | hc
      · exact Or.inr (Or.inl (hwf c hc))
      · rw [List.mem_singleton.mp hc]
        exact Or.inr (Or.inr rfl)
  · simp [children] at hc

/-- nodeAt only reaches Ok nodes from an Ok node. -/
theorem nodeAt_okTreeNode : ∀ {p : List Nat} {t m : MenuNode}, OkTreeNode t →
    nodeAt t p = some m → OkTreeNode m := by
  intro p
  induction p with
  | nil =>
    intro t m ht h
    simp only [nodeAt] at h
    cases h
    exact ht
  | cons i p ih =>
    intro t m ht h
    cases hc : (children t)[i]? with
    | none => simp [nodeAt, hc] at h
    | some c =>
      simp only [nodeAt, hc] at h
      exact ih (okTreeNode_child ht (List.getElem?_mem hc)) h

/-- Inversion of the builder invariant at a submenu node. -/
theorem wfchild_submenu_inv {lbl : PyVal} {cs : List MenuNode}
    (h : WFChild (MenuNode.submenu lbl cs)) :
    ∃ ini, cs = ini ++ [MenuNode.back] ∧ ∀ c ∈ ini, WFChild c ∧ c ≠ MenuNode.back := by
  cases h with
  | submenu l ini hwf hnb => exact ⟨ini, rfl, fun c hc => ⟨hwf c hc, hnb c hc⟩⟩

/-- The node one path step before m is the parent holding m. -/
theorem nodeAt_parent : ∀ {q : List Nat} {i : Nat} {t m : MenuNode},
    nodeAt t (q ++ [i]) = some m → ∃ par, nodeAt t q = some par ∧ m ∈ children par := by
  intro q
  induction q with
  | nil =>
    intro i t m h
    simp only [List.nil_append] at h
    cases hc : (children t)[i]? with
    | none => simp [nodeAt, hc] at h
    | some c =>
      simp only [nodeAt, hc] at h
      cases h
      exact ⟨t, rfl, List.getElem?_mem hc⟩
  | cons j q ih =>
    intro i t m h
    simp only [List.cons_append] at h
    cases hc : (children t)[j]? with
    | none => simp [nodeAt, hc] at h
    | some c =>
      simp only [nodeAt, hc] at h
      obtain ⟨par, hp, hm⟩ := ih h
      refine ⟨par, ?_, hm⟩
      simp [nodeAt, hc, hp]

/-- C1: in every successfully built tree, every non-root submenu node
has exactly one synthesized Back item, appended after all children
derived from its sublist, so Back is its last child; invoking it
(backNavigate) reaches the node at the parent path, which indeed holds
the submenu among its children; the Root receives no Back item; and a
submenu built from an empty sublist contains exactly the Back item. -/
theorem c1_back_item_policy (menu : Option (List PyVal)) (t : MenuNode)
    (hb : get_menu_items menu = Except.ok t) :
    (∀ p lbl cs, nodeAt t p = some (MenuNode.submenu lbl cs) →
      (∃ ini, cs = ini ++ [MenuNode.back] ∧ ∀ c ∈ ini, c ≠ MenuNode.back) ∧
      backCount cs = 1 ∧ cs.getLast? = some MenuNode.back ∧ p ≠ [] ∧
      ∃ par, nodeAt t (backNavigate p) = some par ∧
        MenuNode.submenu lbl cs ∈ children par) ∧
    backCount (children t) = 0 ∧
    (∀ lbl, walk_menu [] (MenuNode.submenu lbl []) =
      Except.ok (MenuNode.submenu lbl [MenuNode.back])) := by
  obtain ⟨rcs, rfl, goodr⟩ := get_menu_items_ok hb
  refine ⟨?_, ?_, ?_⟩
  · intro p lbl cs hn
    have hok := nodeAt_okTreeNode (Or.inl ⟨rcs, rfl, goodr⟩) hn
    have hwf : WFChild (MenuNode.submenu lbl cs) := by
      rcases hok with ⟨cs2, heq, _⟩ | hw | heq
      · simp at heq
      · exact hw
      · simp at heq
    obtain ⟨ini, rfl, hgood⟩ := wfchild_submenu_inv hwf
    have hp : p ≠ [] := by
      intro hpe
      subst hpe
      simp only [nodeAt] at hn
      simp at hn
    refine ⟨⟨ini, rfl, fun c hc => (hgood c hc).2⟩, ?_, ?_, hp, ?_⟩
    · simp only [backCount, List.countP_append]
      have h0 : List.countP (fun c => isBack c) ini = 0 :=
        List.countP_eq_zero.mpr
          (fun c hc => by rw [isBack_eq_false (hgood c hc).2]; simp)
      rw [h0]
      simp [List.countP, List.countP.go, isBack]
    · rw [List.getLast?_append_of_ne_nil ini (by simp)]
      rfl
    · rw [← List.dropLast_append_getLast hp] at hn
      obtain ⟨par, hpar, hmem⟩ := nodeAt_parent hn
      refine ⟨par, ?_, hmem⟩
      rw [backNavigate]
      rw [← List.dropLast_append_getLast hp]
      simp only [List.dropLast_concat]
      exact hpar
  · simp only [children, backCount]
    exact List.countP_eq_zero.mpr
      (fun c hc => by rw [isBack_eq_false (goodr c hc).2]; simp)
  · intro lbl
    simp [walk_menu, walkLoop, finishNode, isSubmenu, add_back_item]

/-- Witness for C1 at the spec example: the Settings submenu, reached
at path [1], has the Back item as its only trailing Back child, and
backNavigate from it lands on the Root that holds it. -/
theorem c1_back_item_policy_witness :
    (∃ ini, [MenuNode.item (PyVal.pyStr "Volume") (PyVal.pyFun 1), MenuNode.back] =
        ini ++ [MenuNode.back] ∧ ∀ c ∈ ini, c ≠ MenuNode.back) ∧
    backCount [MenuNode.item (PyVal.pyStr "Volume") (PyVal.pyFun 1), MenuNode.back] = 1 ∧
    [MenuNode.item (PyVal.pyStr "Volume") (PyVal.pyFun 1),
      MenuNode.back].getLast? = some MenuNode.back ∧
    ([1] : List Nat) ≠ [] ∧
    ∃ par, nodeAt sampleTree (backNavigate [1]) = some par ∧
      MenuNode.submenu (PyVal.pyStr "Settings")
        [MenuNode.item (PyVal.pyStr "Volume") (PyVal.pyFun 1), MenuNode.back] ∈
        children par :=
  (c1_back_item_policy (some sampleMenu) sampleTree
      (by simp [get_menu_items, sampleMenu, sampleTree, walk_menu, walkLoop,
        walkStep, add_item, add_back_item, isSubmenu])).1
    [1] (PyVal.pyStr "Settings")
    [MenuNode.item (PyVal.pyStr "Volume") (PyVal.pyFun 1), MenuNode.back]
    (by simp [nodeAt, sampleTree, children])

/-- Refinement of the loop on well-formed encoded specs: the loop
appends exactly the prescribed nodes of the pairs, in their order. -/
theorem walkLoop_encode : ∀ (es : List (String × MTarget)), wfEntries es = true →
    ∀ parent, walkLoop (encodeEntries es) parent =
      Except.ok (appendKids parent (entryNodes es)) := by
  apply encodeEntries.induct
    (fun tgt => ∀ lbl, wfTarget tgt = true →
      ((∀ sub, encodeTarget tgt = PyVal.pyList sub →
        walk_menu sub (MenuNode.submenu (PyVal.pyStr lbl) []) =
          Except.ok (targetNode lbl tgt)) ∧
       (isPyList (encodeTarget tgt) = false →
        MenuNode.item (PyVal.pyStr lbl) (encodeTarget tgt) = targetNode lbl tgt)))
  · -- action target
    intro v lbl hwf
    simp only [wfTarget, Bool.not_eq_true'] at hwf
    constructor
    · intro sub hsub
      rw [encodeTarget] at hsub
      rw [hsub] at hwf
      simp [isPyList] at hwf
    · intro _
      rfl
  · -- sublist target
    intro es ih lbl hwf
    simp only [wfTarget] at hwf
    constructor
    · intro sub hsub
      rw [encodeTarget] at hsub
      injection hsub with hsub
      subst hsub
      rw [walk_menu, ih hwf (MenuNode.submenu (PyVal.pyStr lbl) [])]
      simp [appendKids, finishNode, isSubmenu, add_back_item, targetNode]
    · intro hcon
      rw [encodeTarget] at hcon
      simp [isPyList] at hcon
  · -- empty entry list
    intro _ parent
    simp [encodeEntries, walkLoop, entryNodes, appendKids_nil]
  · -- entry cons
    intro t tgt rest ih1 ih2 hwf parent
    simp only [wfEntries, Bool.and_eq_true] at hwf
    obtain ⟨hwt, hwr⟩ := hwf
    rw [encodeEntries]
    rw [walkLoop]
    cases henc : encodeTarget tgt with
    | pyList sub =>
      rw [walkStep]
      rw [(ih1 t hwt).1 sub henc]
      simp only [ih2 hwr, add_item_eq_appendKids, appendKids_append, entryNodes,
        List.singleton_append]
    | pyStr s =>
      rw [walkStep]
      · have hitem := (ih1 t hwt).2 (by rw [henc]; rfl)
        rw [henc] at hitem
        rw [hitem, ih2 hwr (add_item parent (targetNode t tgt)),
          add_item_eq_appendKids, appendKids_append, entryNodes, List.singleton_append]
      · intro sub h
        exact PyVal.noConfusion h
    | pyInt n =>
      rw [walkStep]
      · have hitem := (ih1 t hwt).2 (by rw [henc]; rfl)
        rw [henc] at hitem
        rw [hitem, ih2 hwr (add_item parent (targetNode t tgt)),
          add_item_eq_appendKids, appendKids_append, entryNodes, List.singleton_append]
      · intro sub h
        exact PyVal.noConfusion h
    | pyFun n =>
      rw [walkStep]
      · have hitem := (ih1 t hwt).2 (by rw [henc]; rfl)
        rw [henc] at hitem
        rw [hitem, ih2 hwr (add_item parent (targetNode t tgt)),
          add_item_eq_appendKids, appendKids_append, entryNodes, List.singleton_append]
      · intro sub h
        exact PyVal.noConfusion h
    | pyTuple l =>
      rw [walkStep]
      · have hitem := (ih1 t hwt).2 (by rw [henc]; rfl)
        rw [henc] at hitem
        rw [hitem, ih2 hwr (add_item parent (targetNode t tgt)),
          add_item_eq_appendKids, appendKids_append, entryNodes, List.singleton_append]
      · intro sub h
        exact PyVal.noConfusion h

/-- C2: for every well-formed MenuSpec, the built tree holds the node
of each (label, target) pair in exactly the order the pairs appear, at
every level (entryNodes maps the pairs in order, with the synthesized
Back item after all of them inside each submenu); in particular the
spec example builds Root with children Item Play then Submenu Settings,
the latter holding Item Volume then Back. -/
theorem c2_order_preservation (es : List (String × MTarget)) (h : wfEntries es = true) :
    get_menu_items (some (encodeEntries es)) = Except.ok (MenuNode.root (entryNodes es)) ∧
    get_menu_items (some sampleMenu) = Except.ok sampleTree := by
  constructor
  · cases hes : encodeEntries es with
    | nil =>
      have hnil : es = [] := by
        cases es with
        | nil => rfl
        | cons e rest =>
          obtain ⟨t, tgt⟩ := e
          rw [encodeEntries] at hes
          exact List.noConfusion hes
      subst hnil
      simp [get_menu_items, entryNodes]
    | cons x xs =>
      have hwalk := walkLoop_encode es h (MenuNode.root [])
      rw [hes] at hwalk
      simp only [get_menu_items]
      rw [walk_menu, hwalk]
      simp [appendKids, finishNode, isSubmenu]
  · simp [get_menu_items, sampleMenu, sampleTree, walk_menu, walkLoop, walkStep,
      add_item, add_back_item, isSubmenu]

/-- Witness for C2 at the spec example. -/
theorem c2_order_preservation_witness :
    get_menu_items (some (encodeEntries sampleSpec)) =
      Except.ok (MenuNode.root (entryNodes sampleSpec)) ∧
    get_menu_items (some sampleMenu) = Except.ok sampleTree :=
  c2_order_preservation sampleSpec (by rfl)

/-- C3: an absent (None) or empty menu spec builds a Root with zero
children and no synthesized Back item, through both _get_menu_items and
build_menu. -/
theorem c3_empty_spec :
    get_menu_items none = Except.ok (MenuNode.root []) ∧
    get_menu_items (some []) = Except.ok (MenuNode.root []) ∧
    build_menu none = Except.ok (MenuNode.root []) ∧
    build_menu (some []) = Except.ok (MenuNode.root []) ∧
    children (MenuNode.root []) = [] ∧
    backCount (children (MenuNode.root [])) = 0 :=
  ⟨rfl, rfl, rfl, rfl, rfl, rfl⟩

/-- C4 counterexample: a spec whose target is the bare integer 42 —
neither a callable action nor a list — builds successfully: the integer
is wrapped as the action of an Item node and the completed tree is
returned, so no MalformedMenuSpec (nor any other error) is raised at
build time, contrary to the claim. -/
theorem c4_counterexample :
    get_menu_items (some [PyVal.pyTuple [PyVal.pyStr "x", PyVal.pyInt 42]]) =
      Except.ok (MenuNode.root [MenuNode.item (PyVal.pyStr "x") (PyVal.pyInt 42)]) := by
  simp [get_menu_items, walk_menu, walkLoop, walkStep, add_item, isSubmenu]

/-- C4 amended: the builder validates nothing about a non-list target:
type(target) == list is the only test, so any non-list target — valid
action or not — is wrapped as an Item and the walk continues, and the
build of such a spec completes normally instead of raising
MalformedMenuSpec. -/
theorem c4_amended (lbl v : PyVal) (rest : List PyVal) (parent : MenuNode)
    (hv : isPyList v = false) :
    walkStep lbl v rest parent =
      walkLoop rest (add_item parent (MenuNode.item lbl v)) ∧
    get_menu_items (some [PyVal.pyTuple [lbl, v]]) =
      Except.ok (MenuNode.root [MenuNode.item lbl v]) := by
  have hstep : ∀ (r : List PyVal) (p : MenuNode),
      walkStep lbl v r p = walkLoop r (add_item p (MenuNode.item lbl v)) := by
    intro r p
    cases v with
    | pyList sub => rw [isPyList] at hv; exact Bool.noConfusion hv
    | pyStr s => rw [walkStep]; intro sub h; exact PyVal.noConfusion h
    | pyInt n => rw [walkStep]; intro sub h; exact PyVal.noConfusion h
    | pyFun n => rw [walkStep]; intro sub h; exact PyVal.noConfusion h
    | pyTuple l => rw [walkStep]; intro sub h; exact PyVal.noConfusion h
  refine ⟨hstep rest parent, ?_⟩
  simp only [get_menu_items]
  rw [walk_menu, walkLoop, hstep [] (MenuNode.root []), walkLoop]
  simp [add_item, isSubmenu]

/-- Witness for C4 amended at the integer target 42. -/
theorem c4_amended_witness :
    walkStep (PyVal.pyStr "x") (PyVal.pyInt 42) [] (MenuNode.root []) =
      walkLoop []
        (add_item (MenuNode.root []) (MenuNode.item (PyVal.pyStr "x") (PyVal.pyInt 42))) ∧
    get_menu_items (some [PyVal.pyTuple [PyVal.pyStr "x", PyVal.pyInt 42]]) =
      Except.ok (MenuNode.root [MenuNode.item (PyVal.pyStr "x") (PyVal.pyInt 42)]) :=
  c4_amended (PyVal.pyStr "x") (PyVal.pyInt 42) [] (MenuNode.root []) rfl

/-!  Lemmas about the accent sanitizer.  -/

theorem nfkdChar_ascii {c : Char} (h : isAsciiChar c = true) : nfkdChar c = [c] := by
  have h2 : c.toNat < 128 := by simpa [isAsciiChar] using h
  rw [nfkdChar, if_neg (by omega), if_neg (by omega)]

theorem nfkdChars_ascii {l : List Char} (h : ∀ c ∈ l, isAsciiChar c = true) :
    nfkdChars l = l := by
  induction l with
  | nil => rfl
  | cons c cs ih =>
    rw [nfkdChars, nfkdChar_ascii (h c (List.mem_cons_self c cs)),
      ih (fun x hx => h x (List.mem_cons_of_mem c hx))]
    rfl

theorem sanitizeText_ascii {s : String} (h : ∀ c ∈ s.data, isAsciiChar c = true) :
    sanitizeText s = s := by
  obtain ⟨l⟩ := s
  show String.mk (asciiOnlyChars (nfkdChars l)) = String.mk l
  rw [nfkdChars_ascii h, asciiOnlyChars, List.filter_eq_self.mpr h]

theorem sanitizeText_all_ascii (s : String) :
    ∀ c ∈ (sanitizeText s).data, isAsciiChar c = true := by
  intro c hc
  exact List.of_mem_filter hc

mutual

theorem remove_accents_clean : ∀ (x y : SanVal),
    remove_accents x = Except.ok y → asciiCleanV y = true
  | SanVal.text s, y, h => by
    simp only [remove_accents] at h
    cases h
    simp only [asciiCleanV, List.all_eq_true]
    exact sanitizeText_all_ascii s
  | SanVal.intVal n, y, h => by
    simp only [remove_accents] at h
    exact Except.noConfusion h
  | SanVal.dict es, y, h => by
    simp only [remove_accents] at h
    cases hes : remove_accentsEntries es with
    | error e => rw [hes] at h; exact Except.noConfusion h
    | ok es2 =>
      rw [hes] at h
      cases h
      exact remove_accentsEntries_clean es es2 hes

theorem remove_accentsEntries_clean : ∀ (es es2 : SanEntries),
    remove_accentsEntries es = Except.ok es2 → asciiCleanE es2 = true
  | SanEntries.nil, es2, h => by
    simp only [remove_accentsEntries] at h
    cases h
    rfl
  | SanEntries.cons k v rest, es2, h => by
    simp only [remove_accentsEntries] at h
    cases hv : remove_accents v with
    | error e => rw [hv] at h; exact Except.noConfusion h
    | ok v2 =>
      rw [hv] at h
      cases hr : remove_accentsEntries rest with
      | error e => rw [hr] at h; exact Except.noConfusion h
      | ok rest2 =>
        rw [hr] at h
        cases h
        rw [asciiCleanE, remove_accents_clean v v2 hv,
          remove_accentsEntries_clean rest rest2 hr]
        rfl

end

mutual

theorem remove_accents_id : ∀ (y : SanVal), asciiCleanV y = true →
    remove_accents y = Except.ok y
  | SanVal.text s, h => by
    rw [remove_accents, sanitizeText_ascii ?_]
    rw [asciiCleanV, List.all_eq_true] at h
    exact h
  | SanVal.intVal n, h => by
    rw [asciiCleanV] at h
    exact Bool.noConfusion h
  | SanVal.dict es, h => by
    rw [asciiCleanV] at h
    rw [remove_accents, remove_accentsEntries_id es h]

theorem remove_accentsEntries_id : ∀ (es : SanEntries), asciiCleanE es = true →
    remove_accentsEntries es = Except.ok es
  | SanEntries.nil, h => by rw [remove_accentsEntries]
  | SanEntries.cons k v rest, h => by
    rw [asciiCleanE, Bool.and_eq_true] at h
    rw [remove_accentsEntries, remove_accents_id v h.1,
      remove_accentsEntries_id rest h.2]

end

/-- Entrywise behaviour of the dict comprehension: keys are kept in
order and every value is sanitized. -/
theorem remove_accentsEntries_rel : ∀ (es es2 : SanEntries),
    remove_accentsEntries es = Except.ok es2 →
    keysE es2 = keysE es ∧ EntriesSan es es2
  | SanEntries.nil, es2, h => by
    simp only [remove_accentsEntries] at h
    cases h
    exact ⟨rfl, EntriesSan.nil⟩
  | SanEntries.cons k v rest, es2, h => by
    simp only [remove_accentsEntries] at h
    cases hv : remove_accents v with
    | error e => rw [hv] at h; exact Except.noConfusion h
    | ok v2 =>
      rw [hv] at h
      cases hr : remove_accentsEntries rest with
      | error e => rw [hr] at h; exact Except.noConfusion h
      | ok rest2 =>
        rw [hr] at h
        cases h
        obtain ⟨hk, hrel⟩ := remove_accentsEntries_rel rest rest2 hr
        exact ⟨by rw [keysE, keysE, hk], EntriesSan.cons k v v2 rest rest2 hv hrel⟩

/-- C5: on a mapping, remove_accents recurses into every value keeping
the keys and structure; on text it returns NFKD normalization followed
by dropping every non-ASCII codepoint; sanitizing the text cafe with e
acute yields cafe, and the Deja-vu mapping example sanitizes valuewise
with keys preserved. -/
theorem c5_sanitizer (es : SanEntries) (d : SanVal)
    (h : remove_accents (SanVal.dict es) = Except.ok d) :
    (∃ es2, d = SanVal.dict es2 ∧ keysE es2 = keysE es ∧ EntriesSan es es2) ∧
    (∀ s, remove_accents (SanVal.text s) =
      Except.ok (SanVal.text (String.mk (asciiOnlyChars (nfkdChars s.data))))) ∧
    remove_accents (SanVal.text "café") = Except.ok (SanVal.text "cafe") ∧
    remove_accents (SanVal.dict dejaIn) = Except.ok (SanVal.dict dejaOut) := by
  refine ⟨?_, ?_, ?_, ?_⟩
  · simp only [remove_accents] at h
    cases hes : remove_accentsEntries es with
    | error e => rw [hes] at h; exact Except.noConfusion h
    | ok es2 =>
      rw [hes] at h
      cases h
      obtain ⟨hk, hrel⟩ := remove_accentsEntries_rel es es2 hes
      exact ⟨es2, rfl, hk, hrel⟩
  · intro s
    rw [remove_accents]
    rfl
  · simp [remove_accents]
    decide
  · simp [dejaIn, dejaOut, remove_accents, remove_accentsEntries]
    decide

/-- Witness for C5 at the Deja-vu mapping example. -/
theorem c5_sanitizer_witness :
    ∃ es2, SanVal.dict dejaOut = SanVal.dict es2 ∧ keysE es2 = keysE dejaIn ∧
      EntriesSan dejaIn es2 :=
  (c5_sanitizer dejaIn (SanVal.dict dejaOut)
    (by simp [dejaIn, dejaOut, remove_accents, remove_accentsEntries]; decide)).1

/-- C6: the sanitizer is idempotent — whatever remove_accents returns,
running remove_accents on the result returns it unchanged. -/
theorem c6_idempotent (x y : SanVal) (h : remove_accents x = Except.ok y) :
    remove_accents y = Except.ok y :=
  remove_accents_id y (remove_accents_clean x y h)

/-- Witness for C6 at the Deja-vu mapping example. -/
theorem c6_idempotent_witness :
    remove_accents (SanVal.dict dejaOut) = Except.ok (SanVal.dict dejaOut) :=
  c6_idempotent (SanVal.dict dejaIn) (SanVal.dict dejaOut)
    (by simp [dejaIn, dejaOut, remove_accents, remove_accentsEntries]; decide)

/-- C7: remove_accents is the identity on pure-ASCII text, and it
succeeds (raises nothing) on every text input. -/
theorem c7_ascii_identity (s : String) (h : ∀ c ∈ s.data, isAsciiChar c = true) :
    remove_accents (SanVal.text s) = Except.ok (SanVal.text s) ∧
    (∀ t : String, ∃ r, remove_accents (SanVal.text t) = Except.ok r) := by
  constructor
  · rw [remove_accents, sanitizeText_ascii h]
  · intro t
    exact ⟨SanVal.text (sanitizeText t), by rw [remove_accents]⟩

/-- Witness for C7 at the ASCII string radio. -/
theorem c7_ascii_identity_witness :
    remove_accents (SanVal.text "radio") = Except.ok (SanVal.text "radio") :=
  (c7_ascii_identity "radio" (by decide)).1

/-- C8: an input that is neither text nor a mapping — an integer, bare
or as a mapping value — makes remove_accents fail with the error raised
at the normalization step (the spec's UnsupportedInputType), surfaced
to the caller with no coercion. -/
theorem c8_unsupported_input :
    (∀ n : Int, remove_accents (SanVal.intVal n) = Except.error SanErr.unsupportedInput) ∧
    remove_accents (SanVal.dict (SanEntries.cons "k" (SanVal.intVal 3) SanEntries.nil)) =
      Except.error SanErr.unsupportedInput := by
  constructor
  · intro n
    rw [remove_accents]
  · simp [remove_accents, remove_accentsEntries]

/-- C9: on a mode with a configured LED pin (pigpio handle present,
nonzero pin), toggle_led(True) then toggle_led(False) issues exactly
two hardware writes, (pin, 1) then (pin, 0), in that order; on a mode
with no LED pin (led_pin None), any sequence of toggle_led calls issues
zero hardware writes and raises nothing. -/
theorem c9_toggle_led (p : Nat) (hp : p ≠ 0) (pi : Bool) (states : List Bool) :
    runToggles (radioBaseMode_init true (some p)) [true, false] =
      Except.ok (ModeState.mk true (some p)
        [GpioCall.setMode p, GpioCall.write p 1, GpioCall.write p 0]) ∧
    writesOf (ModeState.mk true (some p)
      [GpioCall.setMode p, GpioCall.write p 1, GpioCall.write p 0]) = [(p, 1), (p, 0)] ∧
    runToggles (radioBaseMode_init pi none) states =
      Except.ok (radioBaseMode_init pi none) ∧
    writesOf (radioBaseMode_init pi none) = [] := by
  have hnil : ∀ (st : ModeState), st.led_pin = none →
      ∀ ss : List Bool, runToggles st ss = Except.ok st := by
    intro st hpin ss
    induction ss with
    | nil => rfl
    | cons b rest ih => simp only [runToggles, toggle_led, hpin]; exact ih
  refine ⟨?_, ?_, hnil _ rfl states, rfl⟩
  · simp [runToggles, radioBaseMode_init, toggle_led, hp]
  · simp [writesOf]

/-- Witness for C9 at pin 18 with no-pin runs of three toggles. -/
theorem c9_toggle_led_witness :
    runToggles (radioBaseMode_init true (some 18)) [true, false] =
      Except.ok (ModeState.mk true (some 18)
        [GpioCall.setMode 18, GpioCall.write 18 1, GpioCall.write 18 0]) ∧
    writesOf (ModeState.mk true (some 18)
      [GpioCall.setMode 18, GpioCall.write 18 1, GpioCall.write 18 0]) = [(18, 1), (18, 0)] ∧
    runToggles (radioBaseMode_init false none) [true, false, true] =
      Except.ok (radioBaseMode_init false none) ∧
    writesOf (radioBaseMode_init false none) = [] :=
  c9_toggle_led 18 (by decide) false [true, false, true]

/-- C10: a mode constructed with led_pin = 0 behaves exactly like one
with no pin: the constructor issues no set_mode call, toggle_led issues
no write for either state, and the truthiness test treats pin 0 like
None — both guards test the pin value's truthiness, not its
presence. -/
theorem c10_pin_zero (pi : Bool) (state : Bool) (calls : List GpioCall) :
    radioBaseMode_init pi (some 0) = ModeState.mk pi (some 0) [] ∧
    toggle_led (ModeState.mk pi (some 0) calls) state =
      Except.ok (ModeState.mk pi (some 0) calls) ∧
    pinTruthy (some 0) = pinTruthy none := by
  refine ⟨?_, ?_, rfl⟩
  · simp [radioBaseMode_init]
  · simp [toggle_led]

end PiRadio
